import Mathlib

set_option maxHeartbeats 1000000

/-!
Shallow embedding of `steinbock/preprocessing/imc.py`: panel construction
(`create_panel_from_imc_panel`, `create_panel_from_mcd_files`,
`create_panel_from_txt_files`, `_clean_panel`), per-image metadata
(`create_image_info`), hot-pixel filtering (`filter_hot_pixels`), and the
MCD/TXT preprocessing generator (`try_preprocess_images_from_disk`,
`_match_txt_file`, `_get_channel_indices`).

Modelling conventions:
* pandas data frames holding channel panels are modelled by `Panel`
  (an ordered column-name list plus a row list).
* numpy images are modelled as `List (List (List ℚ))` (channel, row, column);
  dtype conversions (`astype(np.float32)`, `io._to_dtype`) are modelled as
  the identity on the rational values.
* Python exceptions turn the affected function into an `Option`-returning
  function (`none` = an exception was raised).  In the preprocessing
  generator an acquisition read that raises `IOError` is a `none` read
  result carried by the modelled acquisition or txt file.
* Paths are strings with `/` separators and no trailing slash.
-/

/-! ### String and list utilities (kernel-reducible replacements for the
Python string operations used by the source) -/

/-- Split a character list at every occurrence of `sep` (Python `str.split`). -/
def splitOnChar (sep : Char) : List Char → List (List Char)
  | [] => [[]]
  | c :: cs =>
    let rest := splitOnChar sep cs
    if c == sep then [] :: rest
    else
      match rest with
      | [] => [[c]]
      | r :: rs => (c :: r) :: rs

/-- Python `Path(p).name`: the final path component (after the last `/`). -/
def pathName (p : String) : String :=
  String.mk ((splitOnChar '/' p.toList).getLastD [])

/-- The characters of a file name without its final extension; a dot at
position `0` or at the very end does not start an extension (Python
`Path` suffix rules). -/
def stemChars (cs : List Char) : List Char :=
  let dots := (List.range cs.length).filter
    (fun i => cs.getD i ' ' == '.' && decide (0 < i) && decide (i + 1 < cs.length))
  match dots.getLast? with
  | some i => cs.take i
  | none => cs

/-- Python `Path(p).stem`. -/
def pathStem (p : String) : String :=
  String.mk (stemChars (pathName p).toList)

/-- Code-point lexicographic comparison of character lists, the order Python
uses to compare strings. -/
def lexLe : List Char → List Char → Bool
  | [], _ => true
  | _ :: _, [] => false
  | a :: as, b :: bs =>
    if a.toNat < b.toNat then true
    else if b.toNat < a.toNat then false
    else lexLe as bs

/-- Python string `<=` (code-point lexicographic). -/
def strLe (a b : String) : Bool := lexLe a.toList b.toList

/-- The natural number denoted by a list of decimal digit characters. -/
def natFromDigits (cs : List Char) : Nat :=
  cs.foldl (fun acc c => acc * 10 + (c.toNat - 48)) 0

/-- The numeric sort key used by `_clean_panel`: `pd.to_numeric` applied to
the digits kept by `str.replace("[^0-9]", "")`; `none` when the channel id
contains no digit, where `pd.to_numeric` raises and `_clean_panel` fails. -/
def channelKey (s : String) : Option Nat :=
  let ds := s.toList.filter Char.isDigit
  if ds.isEmpty then none else some (natFromDigits ds)

/-- Helper for `dropDuplicates`: drop elements already in `seen`, keeping
first occurrences. -/
def dropDupAux [DecidableEq α] (seen : List α) : List α → List α
  | [] => []
  | a :: l => if a ∈ seen then dropDupAux seen l else a :: dropDupAux (a :: seen) l

/-- pandas `drop_duplicates` / `Series.unique`: keep the first occurrence of
each element, preserving order. -/
def dropDuplicates [DecidableEq α] (l : List α) : List α := dropDupAux [] l

/-- Python `sep.join(l)`. -/
def joinSep (sep : String) : List String → String
  | [] => ""
  | [x] => x
  | x :: y :: l => x ++ sep ++ joinSep sep (y :: l)

/-- Map with the element index, starting from `i` (used to model numpy
elementwise operations that need coordinates). -/
def mapIdxFrom (f : Nat → α → β) : Nat → List α → List β
  | _, [] => []
  | i, a :: l => f i a :: mapIdxFrom f (i + 1) l

/-- The first non-`none` entry of a list, modelling the pandas `"first"`
aggregation, which returns the first non-null value of a group. -/
def firstSome : List (Option α) → Option α
  | [] => none
  | some a :: _ => some a
  | none :: l => firstSome l

/-! ### The panel data model -/

/-- One row of a channel panel.  `channel` and `name` are the two columns all
creation paths fill; `keep`/`ilastik`/`deepcell` hold the value of the
corresponding column when that column exists (`Panel.columns` records which
columns exist); `extra` holds the values of any further columns of an IMC
panel CSV, keyed by column name.  Boolean `ilastik` values of an IMC panel
are encoded as `0`/`1` (pandas later reads them back with `astype(bool)`). -/
structure PRow where
  channel : String
  name : String
  keep : Option Bool
  ilastik : Option Nat
  deepcell : Option Nat
  extra : List (String × Option String)
deriving DecidableEq

/-- A channel panel: a pandas data frame with an ordered list of column
names and a list of rows. -/
structure Panel where
  columns : List String
  rows : List PRow
deriving DecidableEq

/-- The numeric sort key of a panel row (total on rows whose channel id has
at least one digit, which `_clean_panel` checks before sorting). -/
def channelKeyD (r : PRow) : Nat := (channelKey r.channel).getD 0

/-- The name-deduplication step of `_clean_panel`: rows whose `name` occurs
more than once get a 1-based per-name occurrence counter appended
(`panel.groupby("name").cumcount()` plus the duplicate mask). -/
def nameDedupe (rows : List PRow) : List PRow :=
  rows.enum.map (fun p =>
    if 1 < rows.countP (fun x => x.name == p.2.name) then
      { p.2 with
        name := p.2.name ++ " " ++
          toString ((rows.take p.1).countP (fun x => x.name == p.2.name) + 1) }
    else p.2)

/-- The `ilastik` initialisation of `_clean_panel` when the panel has no
`ilastik` column: rows with `keep = True` are numbered `1, 2, ...` in row
order (`panel.loc[panel["keep"], "ilastik"] = range(1, ... + 1)`). -/
def assignIlastik (k : Nat) : List PRow → List PRow
  | [] => []
  | r :: rs =>
    if r.keep = some true then
      { r with ilastik := some (k + 1) } :: assignIlastik (k + 1) rs
    else r :: assignIlastik k rs

/-- The `ilastik` renumbering at the end of `create_panel_from_imc_panel`:
rows whose current `ilastik` value is truthy (`fillna(False).astype(bool)`)
are renumbered `1, 2, ...` in row order, all other rows become `NA`. -/
def renumberIlastik (k : Nat) : List PRow → List PRow
  | [] => []
  | r :: rs =>
    if (r.ilastik.getD 0) ≠ 0 then
      { r with ilastik := some (k + 1) } :: renumberIlastik (k + 1) rs
    else { r with ilastik := none } :: renumberIlastik k rs

/-- The row transformation of `_clean_panel`: sort by the numeric channel
key, disambiguate duplicated names, fill a missing `keep` column with
`True`, and number the kept rows in a missing `ilastik` column. -/
def cleanRows (p : Panel) : List PRow :=
  let sorted := List.insertionSort (fun a b => channelKeyD a ≤ channelKeyD b) p.rows
  let named := nameDedupe sorted
  let rows2 := if "keep" ∈ p.columns then named
    else named.map (fun r => { r with keep := some true })
  if "ilastik" ∈ p.columns then rows2 else assignIlastik 0 rows2

/-- The column-order transformation of `_clean_panel`: append the missing
ones of `keep`/`ilastik`/`deepcell`, then move the five canonical columns
to the front, keeping the relative order of the remaining columns. -/
def cleanCols (p : Panel) : List String :=
  let cols1 := if "keep" ∈ p.columns then p.columns else p.columns ++ ["keep"]
  let cols2 := if "ilastik" ∈ p.columns then cols1 else cols1 ++ ["ilastik"]
  let cols3 := if "deepcell" ∈ cols2 then cols2 else cols2 ++ ["deepcell"]
  ["channel", "name", "keep", "ilastik", "deepcell"] ++
    cols3.filter (fun c => !(["channel", "name", "keep", "ilastik", "deepcell"].contains c))

/-- `_clean_panel`: sort rows by the numeric channel key (failing like
`pd.to_numeric` when a channel id has no digit), disambiguate duplicated
names, add missing `keep` (all `True`), `ilastik` (numbering the kept rows)
and `deepcell` (all `NA`) columns, and move the five canonical columns to
the front, keeping the relative order of the remaining columns. -/
def _clean_panel (p : Panel) : Option Panel :=
  if p.rows.all (fun r => (channelKey r.channel).isSome) then
    some ⟨cleanCols p, cleanRows p⟩
  else none

/-! ### Panel creation from MCD and TXT files -/

/-- The per-acquisition channel metadata read from an MCD or TXT file
(`acquisition.channel_names` / `acquisition.channel_labels` of `readimc`,
which yields lists of equal length). -/
structure AcqChannels where
  channel_names : List String
  channel_labels : List String
deriving DecidableEq

/-- The `(channel, name)` rows of the per-acquisition panel data frame built
by `create_panel_from_mcd_files` / `create_panel_from_txt_files`. -/
def acqPanelPairs (a : AcqChannels) : List (String × String) :=
  a.channel_names.zip a.channel_labels

/-- All `(channel, name)` rows of all acquisitions of all slides of all
given MCD files, in traversal order (`pd.concat` of the per-acquisition
frames). -/
def mcdPanelPairs (files : List (List (List AcqChannels))) : List (String × String) :=
  files.flatMap (fun file => file.flatMap (fun slide => slide.flatMap acqPanelPairs))

/-- A `(channel, name)` pair as a panel row. -/
def pairRow (pr : String × String) : PRow := ⟨pr.1, pr.2, none, none, none, []⟩

/-- `create_panel_from_mcd_files`: concatenate the per-acquisition channel
tables of every acquisition of every slide of every file, drop duplicate
rows (keeping first occurrences) and clean the result.  With no acquisition
at all, `pd.concat([])` raises (`none`). -/
def create_panel_from_mcd_files (files : List (List (List AcqChannels))) : Option Panel :=
  if (files.flatMap (fun file => file.flatMap (fun slide => slide))).isEmpty then none
  else
    _clean_panel ⟨["channel", "name"],
      (dropDuplicates (mcdPanelPairs files)).map pairRow⟩

/-- All `(channel, name)` rows of the given TXT files, in order. -/
def txtPanelPairs (files : List AcqChannels) : List (String × String) :=
  files.flatMap acqPanelPairs

/-- `create_panel_from_txt_files`: like `create_panel_from_mcd_files`, with
one channel table per TXT file. -/
def create_panel_from_txt_files (files : List AcqChannels) : Option Panel :=
  if files.isEmpty then none
  else
    _clean_panel ⟨["channel", "name"],
      (dropDuplicates (txtPanelPairs files)).map pairRow⟩

/-! ### Panel creation from an IMC panel CSV -/

/-- One parsed row of an IMC panel CSV, after the dtype coercions and the
column renaming of `create_panel_from_imc_panel` (`Metal Tag` → `channel`,
`Target` → `name`, `full` → `keep`, `ilastik` → `ilastik`); `none` fields
are missing (NaN) values.  `extra` holds any further CSV columns. -/
structure ImcPanelRow where
  channel : Option String
  name : Option String
  keep : Option Bool
  ilastik : Option Bool
  extra : List (String × Option String)
deriving DecidableEq

/-- A parsed IMC panel CSV: whether the keep (`full`) and `ilastik` columns
are present, the names of the remaining extra columns in CSV order (assumed
distinct from the five canonical panel column names), and the rows.  The
positions of the canonical columns inside the CSV do not affect the result
(the cleaning step moves them to the front), so only the extra columns'
relative order is recorded. -/
structure ImcPanelInput where
  hasKeep : Bool
  hasIlastik : Bool
  extraCols : List String
  rows : List ImcPanelRow
deriving DecidableEq

/-- The merged row that `create_panel_from_imc_panel` produces for one
channel: names are the ` / `-join of the distinct non-null names of the
group, `keep`/`ilastik` are the group-wise `any()`, and every extra column
keeps its first non-null value (`aggregate("first")`). -/
def imcMergedRow (inp : ImcPanelInput) (ch : String) : PRow :=
  let g := inp.rows.filter (fun r => r.channel == some ch)
  ⟨ch,
    joinSep " / " (dropDuplicates (g.filterMap (fun r => r.name))),
    if inp.hasKeep then some (g.any (fun r => r.keep == some true)) else none,
    if inp.hasIlastik then some (if g.any (fun r => r.ilastik == some true) then 1 else 0)
    else none,
    none,
    inp.extraCols.map (fun c => (c, firstSome (g.map (fun r => (r.extra.lookup c).join))))⟩

/-- The distinct channel values of an IMC panel, in the lexicographically
sorted order `groupby` uses for its group keys. -/
def imcKeys (inp : ImcPanelInput) : List String :=
  List.insertionSort (fun a b => strLe a b = true)
    (dropDuplicates (inp.rows.filterMap (fun r => r.channel)))

/-- The column list of the merged IMC panel before cleaning. -/
def imcCols (inp : ImcPanelInput) : List String :=
  ["channel", "name"] ++ (if inp.hasKeep then ["keep"] else [])
    ++ (if inp.hasIlastik then ["ilastik"] else []) ++ inp.extraCols

/-- `create_panel_from_imc_panel`: after the missing-value checks (any NaN
channel, keep or ilastik value raises), merge the rows of each distinct
channel (pandas `groupby` sorts the group keys lexicographically), clean
the panel, and renumber the `ilastik` column over the truthy entries. -/
def create_panel_from_imc_panel (inp : ImcPanelInput) : Option Panel :=
  if inp.rows.all (fun r => r.channel.isSome)
      && (!inp.hasKeep || inp.rows.all (fun r => r.keep.isSome))
      && (!inp.hasIlastik || inp.rows.all (fun r => r.ilastik.isSome)) then
    match _clean_panel ⟨imcCols inp, (imcKeys inp).map (imcMergedRow inp)⟩ with
    | none => none
    | some cleaned => some ⟨cleaned.columns, renumberIlastik 0 cleaned.rows⟩
  else none

/-! ### Per-image metadata (`create_image_info`) -/

/-- The fields of a `readimc` `Acquisition` used by `create_image_info`.
`roi_points_um` lists the four ROI corner points; the source reads entries
`[0]` and `[2]`. -/
structure AcqMeta where
  id : Nat
  description : String
  roi_points_um : List (ℚ × ℚ)
  width_um : ℚ
  height_um : ℚ
deriving DecidableEq

/-- The acquisition-geometry part of an image-info record, present exactly
when an acquisition was passed. -/
structure ImageInfoAcqGeom where
  acquisition_id : Nat
  acquisition_description : String
  acquisition_start_x_um : ℚ
  acquisition_start_y_um : ℚ
  acquisition_end_x_um : ℚ
  acquisition_end_y_um : ℚ
  acquisition_width_um : ℚ
  acquisition_height_um : ℚ
deriving DecidableEq

/-- The record built by `create_image_info`. -/
structure ImageInfo where
  image : String
  width_px : Nat
  height_px : Nat
  num_channels : Nat
  source_file : String
  recovery_file : Option String
  recovered : Bool
  acquisition_geom : Option ImageInfoAcqGeom
deriving DecidableEq

/-- `create_image_info`: the source only reads `img.shape`, so the image is
passed as its shape list (channels, height, width, ...). -/
def create_image_info (mcd_txt_file : String) (acquisition : Option AcqMeta)
    (img_shape : List Nat) (recovery_file : Option String) (recovered : Bool)
    (img_file : String) : ImageInfo :=
  { image := pathName img_file
    width_px := img_shape.getD 2 0
    height_px := img_shape.getD 1 0
    num_channels := img_shape.getD 0 0
    source_file := pathName mcd_txt_file
    recovery_file := recovery_file.map pathName
    recovered := recovered
    acquisition_geom := acquisition.map (fun a =>
      { acquisition_id := a.id
        acquisition_description := a.description
        acquisition_start_x_um := (a.roi_points_um.getD 0 (0, 0)).1
        acquisition_start_y_um := (a.roi_points_um.getD 0 (0, 0)).2
        acquisition_end_x_um := (a.roi_points_um.getD 2 (0, 0)).1
        acquisition_end_y_um := (a.roi_points_um.getD 2 (0, 0)).2
        acquisition_width_um := a.width_um
        acquisition_height_um := a.height_um }) }

/-! ### Hot-pixel filtering (`filter_hot_pixels`) -/

/-- A 3-dimensional image: channels, then rows, then column values. -/
abbrev I3 := List (List (List ℚ))

/-- Index reflection of `scipy.ndimage`'s `mode="mirror"` boundary
handling: positions reflect about the edge samples without repeating them
(period `2 * n - 2`). -/
def mirrorIndex (n : Nat) (i : Int) : Nat :=
  if n ≤ 1 then 0
  else
    let p : Int := 2 * (n : Int) - 2
    let j := i % p
    if j < (n : Int) then j.toNat else (p - j).toNat

/-- The 8 in-plane neighbor offsets of the `(1, 3, 3)` footprint with the
center removed. -/
def neighborOffsets : List (Int × Int) :=
  [(-1, -1), (-1, 0), (-1, 1), (0, -1), (0, 1), (1, -1), (1, 0), (1, 1)]

/-- The maximum over the 8 mirrored in-plane neighbors of position
`(r, c)` of one channel plane (`scipy.ndimage.maximum_filter` with the
center-free `(1, 3, 3)` footprint and `mode="mirror"`). -/
def maxNeighbor (plane : List (List ℚ)) (r c : Nat) : ℚ :=
  let h := plane.length
  let w := (plane.getD r []).length
  let vals := neighborOffsets.map (fun d =>
    (plane.getD (mirrorIndex h ((r : Int) + d.1)) []).getD (mirrorIndex w ((c : Int) + d.2)) 0)
  match vals with
  | [] => 0
  | v :: vs => vs.foldl max v

/-- `filter_hot_pixels`: replace every pixel that exceeds the maximum of
its 8 in-plane neighbors by more than `thres` with that maximum
(`np.where(img - max_neighbor_img > thres, max_neighbor_img, img)`). -/
def filter_hot_pixels (img : I3) (thres : ℚ) : I3 :=
  img.map (fun plane =>
    mapIdxFrom (fun r row =>
      mapIdxFrom (fun c v =>
        if v - maxNeighbor plane r c > thres then maxNeighbor plane r c else v) 0 row) 0 plane)

/-- The pixel of `img` at channel `k`, row `r`, column `c`. -/
def px (img : I3) (k r c : Nat) : ℚ := ((img.getD k []).getD r []).getD c 0

/-- Modelled from the spec: `io._to_dtype`/`io.img_dtype` live in
`steinbock/io.py`, which is not among the sources here; the spec describes
no behavior for it beyond producing the pipeline's image dtype, so the
conversion is modelled as the identity on the rational pixel values. -/
def io_to_dtype (img : I3) : I3 := img

/-- `preprocess_image`: `astype(np.float32)` (identity here), the optional
hot-pixel filter, and `io._to_dtype`. -/
def preprocess_image (img : I3) (hpf : Option ℚ) : I3 :=
  io_to_dtype (match hpf with
    | some t => filter_hot_pixels img t
    | none => img)

/-! ### TXT file name matching (`_match_txt_file`) -/

/-- Whether a txt file name is matched by `re.match` against the pattern
`rf"{stem}.*_0*{acq_id}.txt"` built by `_match_txt_file`, for a `stem`
without regex metacharacters: some prefix of the name is
`stem ++ anything ++ "_" ++ zeros ++ decimal acq_id ++ any one character ++
"txt"` (`re.match` anchors only at the start, and the `.` before `txt` is
an unescaped regex wildcard). -/
def matchesTxtName (stem : String) (acq_id : Nat) (name : String) : Bool :=
  stem.toList.isPrefixOf name.toList &&
    (let t := name.toList.drop stem.toList.length
    (List.range (t.length + 1)).any (fun i =>
      match t.drop i with
      | '_' :: rest =>
        (List.range (rest.length + 1)).any (fun k =>
          ((rest.take k).all (fun c => c == '0')) &&
            (toString acq_id).toList.isPrefixOf (rest.drop k) &&
            (match (rest.drop k).drop (toString acq_id).toList.length with
              | _ :: 't' :: 'x' :: 't' :: _ => true
              | _ => false))
      | _ => false))

/-- The matching relation the specification describes for `_match_txt_file`:
the whole name is `stem ++ anything ++ "_" ++ zeros ++ decimal acq_id ++
".txt"`, with a literal `.txt` and nothing after it. -/
def specTxtNameMatches (stem : String) (acq_id : Nat) (name : String) : Bool :=
  stem.toList.isPrefixOf name.toList &&
    (let t := name.toList.drop stem.toList.length
    (List.range (t.length + 1)).any (fun i =>
      match t.drop i with
      | '_' :: rest =>
        (List.range (rest.length + 1)).any (fun k =>
          ((rest.take k).all (fun c => c == '0')) &&
            rest.drop k == (toString acq_id).toList ++ ['.', 't', 'x', 't'])
      | _ => false))

/-- Stems for which interpolating the stem into the regex of
`_match_txt_file` treats it literally (no regex metacharacters). -/
def regexSafeStem (s : String) : Bool :=
  s.toList.all (fun c => c.isAlphanum || c == '_' || c == '-' || c == ' ')

/-- `_match_txt_file`: keep the txt files whose *name* matches the pattern
built from the MCD file's stem and the acquisition id; return the match
exactly when it is unique (with zero or several candidates, `None`).
`pathOf` extracts the path from a list element, so the same definition
serves path lists and richer txt-file records. -/
def _match_txt_file (mcd_file : String) (acq_id : Nat) (pathOf : α → String)
    (txt_files : List α) : Option α :=
  let filtered := txt_files.filter
    (fun t => matchesTxtName (pathStem mcd_file) acq_id (pathName (pathOf t)))
  if filtered.length == 1 then filtered.head? else none

/-! ### The preprocessing generator (`try_preprocess_images_from_disk`) -/

/-- `_get_channel_indices`: the index of every requested channel name in the
acquisition's channel names, or, as the `error` case, the first requested
name that is absent. -/
def _get_channel_indices (chs : List String) : List String → Except String (List Nat)
  | [] => .ok []
  | n :: rest =>
    match chs.findIdx? (fun c => c == n) with
    | none => .error n
    | some i =>
      match _get_channel_indices chs rest with
      | .error m => .error m
      | .ok l => .ok (i :: l)

/-- Channel selection `img[channel_ind, :, :]`. -/
def selectChannels (inds : List Nat) (img : I3) : I3 :=
  inds.map (fun i => img.getD i [])

/-- Channel selection when indices were computed (`channel_ind is not None`). -/
def applySelect (inds : Option (List Nat)) (img : I3) : I3 :=
  match inds with
  | none => img
  | some l => selectChannels l img

/-- One acquisition inside an MCD file, as the generator observes it:
its id and channel names, and the outcome of `f_mcd.read_acquisition`
(`none` models the read raising `IOError`). -/
structure AcqData where
  id : Nat
  channel_names : List String
  readResult : Option I3
deriving DecidableEq

/-- An MCD file: its path and its slides, each a list of acquisitions.
A file whose open fails behaves like a file with no slides (the outer
`except` logs and skips it). -/
structure McdData where
  path : String
  slides : List (List AcqData)
deriving DecidableEq

/-- A txt file: its path, the channel names of its single acquisition, and
the outcome of opening and reading it (`none` models an `IOError`). -/
structure TxtData where
  path : String
  channel_names : List String
  readResult : Option I3
deriving DecidableEq

/-- One tuple yielded by the generator: source file path, acquisition
(`none` for a standalone txt file), preprocessed image, matched txt file
path, and the recovery flag. -/
structure Yielded where
  srcFile : String
  acq : Option AcqData
  img : I3
  txtPath : Option String
  recovered : Bool
deriving DecidableEq

/-- Removing the matched txt file from the unmatched list
(`unmatched_txt_files.remove(matched_txt_file)`). -/
def consumeMatched (um : List TxtData) : Option TxtData → List TxtData
  | some t => um.eraseP (fun u => u.path == t.path)
  | none => um

/-- The recovery branch: after `f_mcd.read_acquisition` raised, read the
matched txt file; on success re-run the channel check against the txt
file's channels and yield with `recovered = True`; if the txt read raises
too, or a requested channel is missing, nothing is yielded. -/
def recoveryYield (cn : Option (List String)) (hpf : Option ℚ) (mcdPath : String)
    (acq : AcqData) (t : TxtData) : Option Yielded :=
  match t.readResult with
  | none => none
  | some timg =>
    match cn with
    | none => some ⟨mcdPath, some acq, preprocess_image timg hpf, some t.path, true⟩
    | some ns =>
      match _get_channel_indices t.channel_names ns with
      | .error _ => none
      | .ok tinds =>
        some ⟨mcdPath, some acq, preprocess_image (selectChannels tinds timg) hpf,
          some t.path, true⟩

/-- The read-and-yield part of one acquisition iteration, after the txt
match and the acquisition-level channel check: a successful binary read
yields with `recovered = False` (carrying the matched txt path, if any);
a failed one enters the recovery branch when a txt file was matched. -/
def acqYield (cn : Option (List String)) (hpf : Option ℚ) (mcdPath : String)
    (acq : AcqData) (matched : Option TxtData) (chInd : Option (List Nat)) : Option Yielded :=
  match acq.readResult with
  | some img =>
    some ⟨mcdPath, some acq, preprocess_image (applySelect chInd img) hpf,
      matched.map (fun t => t.path), false⟩
  | none =>
    match matched with
    | none => none
    | some t => recoveryYield cn hpf mcdPath acq t

/-- One acquisition iteration of the generator: match a txt file (and
consume it from the unmatched list even when the acquisition is later
skipped), run the channel check against the acquisition's channels
(a missing channel skips the acquisition), then read and yield. -/
def processAcq (cn : Option (List String)) (hpf : Option ℚ) (mcdPath : String)
    (acq : AcqData) (um : List TxtData) : Option Yielded × List TxtData :=
  match cn with
  | none =>
    (acqYield none hpf mcdPath acq (_match_txt_file mcdPath acq.id (fun t => t.path) um) none,
      consumeMatched um (_match_txt_file mcdPath acq.id (fun t => t.path) um))
  | some ns =>
    match _get_channel_indices acq.channel_names ns with
    | .error _ => (none, consumeMatched um (_match_txt_file mcdPath acq.id (fun t => t.path) um))
    | .ok inds =>
      (acqYield (some ns) hpf mcdPath acq (_match_txt_file mcdPath acq.id (fun t => t.path) um)
        (some inds),
        consumeMatched um (_match_txt_file mcdPath acq.id (fun t => t.path) um))

/-- One acquisition step over the accumulated yields and the unmatched txt
files: run `processAcq` on the current unmatched list, append the yield (if
any), and continue with the updated unmatched list. -/
def stepAcq (cn : Option (List String)) (hpf : Option ℚ) (mcdPath : String)
    (st : List Yielded × List TxtData) (acq : AcqData) : List Yielded × List TxtData :=
  (st.1 ++ ((processAcq cn hpf mcdPath acq st.2).1).toList,
    (processAcq cn hpf mcdPath acq st.2).2)

/-- Fold one slide's acquisitions over the accumulated yields and the
unmatched txt files. -/
def processSlide (cn : Option (List String)) (hpf : Option ℚ) (mcdPath : String)
    (st : List Yielded × List TxtData) (acqs : List AcqData) : List Yielded × List TxtData :=
  acqs.foldl (stepAcq cn hpf mcdPath) st

/-- Process one MCD file (all slides, all acquisitions). -/
def processMcdFile (cn : Option (List String)) (hpf : Option ℚ)
    (st : List Yielded × List TxtData) (mcd : McdData) : List Yielded × List TxtData :=
  mcd.slides.foldl (processSlide cn hpf mcd.path) st

/-- Process a list of MCD files in the given order, starting with no yields
and the full txt file list. -/
def processMcdPhase (cn : Option (List String)) (hpf : Option ℚ)
    (mcds : List McdData) (txts : List TxtData) : List Yielded × List TxtData :=
  mcds.foldl (processMcdFile cn hpf) ([], txts)

/-- Process one remaining txt file: channel check (a missing channel skips
the file), then read and yield with no acquisition and `recovered = False`;
a failing read yields nothing. -/
def processTxtFile (cn : Option (List String)) (hpf : Option ℚ) (t : TxtData) : Option Yielded :=
  match cn with
  | some ns =>
    match _get_channel_indices t.channel_names ns with
    | .error _ => none
    | .ok inds =>
      match t.readResult with
      | some img =>
        some ⟨t.path, none, preprocess_image (selectChannels inds img) hpf, none, false⟩
      | none => none
  | none =>
    match t.readResult with
    | some img => some ⟨t.path, none, preprocess_image img hpf, none, false⟩
    | none => none

/-- The final loop over the txt files left unmatched, in their list order. -/
def processTxtPhase (cn : Option (List String)) (hpf : Option ℚ)
    (ts : List TxtData) : List Yielded :=
  ts.flatMap (fun t => (processTxtFile cn hpf t).toList)

/-- The MCD files sorted by descending stem, Python `sorted(...,
key=stem, reverse=True)` (stable). -/
def sortedMcdFiles (mcds : List McdData) : List McdData :=
  List.insertionSort (fun a b => strLe (pathStem b.path) (pathStem a.path) = true) mcds

/-- `try_preprocess_images_from_disk`: process the MCD files in descending
stem order, then the remaining unmatched txt files; the result is the list
of yielded tuples in generator order. -/
def try_preprocess_images_from_disk (mcds : List McdData) (txts : List TxtData)
    (cn : Option (List String)) (hpf : Option ℚ) : List Yielded :=
  match processMcdPhase cn hpf (sortedMcdFiles mcds) txts with
  | (ys, rem) => ys ++ processTxtPhase cn hpf rem

/-- The txt file paths a yielded tuple mentions: the matched txt path for
an acquisition yield, the source path for a standalone txt yield. -/
def txtMentions (y : Yielded) : List String :=
  match y.acq with
  | some _ => y.txtPath.toList
  | none => [y.srcFile]

/-! ### Basic lemmas about the utilities -/

theorem mem_dropDupAux [DecidableEq α] (l : List α) :
    ∀ (seen : List α) (x : α), x ∈ dropDupAux seen l ↔ x ∈ l ∧ x ∉ seen := by
  induction l with
  | nil => intro seen x; simp [dropDupAux]
  | cons a l ih =>
    intro seen x
    by_cases ha : a ∈ seen
    · rw [dropDupAux, if_pos ha, ih]
      constructor
      · rintro ⟨h1, h2⟩; exact ⟨List.mem_cons_of_mem a h1, h2⟩
      · rintro ⟨h1, h2⟩
        rcases List.mem_cons.mp h1 with rfl | h1
        · exact absurd ha h2
        · exact ⟨h1, h2⟩
    · rw [dropDupAux, if_neg ha]
      simp only [List.mem_cons, ih, List.mem_cons, not_or]
      constructor
      · rintro (rfl | ⟨h1, h2, h3⟩)
        · exact ⟨Or.inl rfl, ha⟩
        · exact ⟨Or.inr h1, h3⟩
      · rintro ⟨rfl | h1, h2⟩
        · exact Or.inl rfl
        · by_cases hxa : x = a
          · exact Or.inl hxa
          · exact Or.inr ⟨h1, hxa, h2⟩

theorem nodup_dropDupAux [DecidableEq α] (l : List α) :
    ∀ seen : List α, (dropDupAux seen l).Nodup := by
  induction l with
  | nil => intro seen; simp [dropDupAux]
  | cons a l ih =>
    intro seen
    by_cases ha : a ∈ seen
    · rw [dropDupAux, if_pos ha]; exact ih seen
    · rw [dropDupAux, if_neg ha]
      refine List.nodup_cons.mpr ⟨fun hmem => ?_, ih (a :: seen)⟩
      exact ((mem_dropDupAux l (a :: seen) a).mp hmem).2 (List.mem_cons_self a seen)

theorem mem_dropDuplicates [DecidableEq α] (l : List α) (x : α) :
    x ∈ dropDuplicates l ↔ x ∈ l := by
  rw [dropDuplicates, mem_dropDupAux]; simp

theorem nodup_dropDuplicates [DecidableEq α] (l : List α) : (dropDuplicates l).Nodup :=
  nodup_dropDupAux l []

theorem getD_mapIdxFrom (f : Nat → α → β) (dA : α) (dB : β) :
    ∀ (l : List α) (i j : Nat), j < l.length →
      (mapIdxFrom f i l).getD j dB = f (i + j) (l.getD j dA) := by
  intro l
  induction l with
  | nil => intro i j hj; simp at hj
  | cons a l ih =>
    intro i j hj
    cases j with
    | zero => simp [mapIdxFrom]
    | succ j =>
      have hj' : j < l.length := by simpa using hj
      simp only [mapIdxFrom, List.getD_cons_succ]
      rw [ih (i + 1) j hj']
      congr 1
      omega

/-! ### `create_image_info` (claim C7) -/

/-- C7: for an image with at least three axes, `create_image_info` reports
`width_px = shape[2]`, `height_px = shape[1]`, `num_channels = shape[0]`,
takes the base names of the image, source and recovery paths, copies the
recovery flag, and carries the acquisition-geometry fields exactly when an
acquisition is given (filled from `id`, `description`, `roi_points_um[0]`,
`roi_points_um[2]`, `width_um` and `height_um`). -/
theorem claim7_image_info (mcd_txt_file : String) (acquisition : Option AcqMeta)
    (img_shape : List Nat) (recovery_file : Option String) (recovered : Bool)
    (img_file : String) (h3 : 3 ≤ img_shape.length) :
    (create_image_info mcd_txt_file acquisition img_shape recovery_file recovered
        img_file).width_px = img_shape.get ⟨2, by omega⟩ ∧
    (create_image_info mcd_txt_file acquisition img_shape recovery_file recovered
        img_file).height_px = img_shape.get ⟨1, by omega⟩ ∧
    (create_image_info mcd_txt_file acquisition img_shape recovery_file recovered
        img_file).num_channels = img_shape.get ⟨0, by omega⟩ ∧
    (create_image_info mcd_txt_file acquisition img_shape recovery_file recovered
        img_file).image = pathName img_file ∧
    (create_image_info mcd_txt_file acquisition img_shape recovery_file recovered
        img_file).source_file = pathName mcd_txt_file ∧
    (create_image_info mcd_txt_file acquisition img_shape recovery_file recovered
        img_file).recovery_file = recovery_file.map pathName ∧
    (create_image_info mcd_txt_file acquisition img_shape recovery_file recovered
        img_file).recovered = recovered ∧
    ((create_image_info mcd_txt_file acquisition img_shape recovery_file recovered
        img_file).acquisition_geom.isSome ↔ acquisition.isSome) ∧
    (∀ a, acquisition = some a →
      (create_image_info mcd_txt_file acquisition img_shape recovery_file recovered
          img_file).acquisition_geom =
        some ⟨a.id, a.description,
          (a.roi_points_um.getD 0 (0, 0)).1, (a.roi_points_um.getD 0 (0, 0)).2,
          (a.roi_points_um.getD 2 (0, 0)).1, (a.roi_points_um.getD 2 (0, 0)).2,
          a.width_um, a.height_um⟩) := by
  refine ⟨?_, ?_, ?_, rfl, rfl, rfl, rfl, ?_, ?_⟩
  · show img_shape.getD 2 0 = _
    rw [List.getD_eq_getElem _ _ (by omega)]; rfl
  · show img_shape.getD 1 0 = _
    rw [List.getD_eq_getElem _ _ (by omega)]; rfl
  · show img_shape.getD 0 0 = _
    rw [List.getD_eq_getElem _ _ (by omega)]; rfl
  · cases acquisition <;> simp [create_image_info]
  · rintro a rfl; rfl

/-- Witness for C7 at a concrete input. -/
theorem claim7_witness :
    (create_image_info "run/slide.mcd" (some ⟨7, "roi", [(1, 2), (3, 2), (3, 5), (1, 5)], 2, 3⟩)
        [4, 10, 20] (some "run/slide_7.txt") true "img/slide_7.tiff").width_px = 20 ∧
    (create_image_info "run/slide.mcd" (some ⟨7, "roi", [(1, 2), (3, 2), (3, 5), (1, 5)], 2, 3⟩)
        [4, 10, 20] (some "run/slide_7.txt") true "img/slide_7.tiff").acquisition_geom =
      some ⟨7, "roi", 1, 2, 3, 5, 2, 3⟩ :=
  ⟨(claim7_image_info "run/slide.mcd" _ [4, 10, 20] _ true "img/slide_7.tiff"
      (by decide)).1,
    (claim7_image_info "run/slide.mcd" _ [4, 10, 20] _ true "img/slide_7.tiff"
      (by decide)).2.2.2.2.2.2.2.2 _ rfl⟩

/-! ### `filter_hot_pixels` (claim C8) -/

theorem getD_map_of_lt (g : α → β) (l : List α) (k : Nat) (hk : k < l.length)
    (dA : α) (dB : β) : (l.map g).getD k dB = g (l.getD k dA) := by
  rw [List.getD_eq_getElem _ _ (by simpa using hk), List.getD_eq_getElem _ _ hk]
  simp

theorem px_filter_hot_pixels (img : I3) (thres : ℚ) (k r c : Nat)
    (hk : k < img.length) (hr : r < (img.getD k []).length)
    (hc : c < ((img.getD k []).getD r []).length) :
    px (filter_hot_pixels img thres) k r c =
      if px img k r c - maxNeighbor (img.getD k []) r c > thres
      then maxNeighbor (img.getD k []) r c else px img k r c := by
  unfold px filter_hot_pixels
  rw [getD_map_of_lt _ _ _ hk []]
  rw [getD_mapIdxFrom _ [] [] _ 0 r hr]
  rw [getD_mapIdxFrom _ 0 0 _ 0 c (by simpa using hc)]
  simp

/-- C8: with a non-negative threshold, `filter_hot_pixels` is pointwise at
most the input, a pixel changes exactly when it exceeds the maximum of its
8 mirrored in-plane neighbors by more than `thres`, and a changed pixel
becomes that neighbor maximum. -/
theorem claim8_hot_pixels (img : I3) (thres : ℚ) (h0 : 0 ≤ thres) (k r c : Nat)
    (hk : k < img.length) (hr : r < (img.getD k []).length)
    (hc : c < ((img.getD k []).getD r []).length) :
    px (filter_hot_pixels img thres) k r c ≤ px img k r c ∧
    (px img k r c - maxNeighbor (img.getD k []) r c > thres →
      px (filter_hot_pixels img thres) k r c = maxNeighbor (img.getD k []) r c) ∧
    (px (filter_hot_pixels img thres) k r c ≠ px img k r c ↔
      px img k r c - maxNeighbor (img.getD k []) r c > thres) := by
  have hpx := px_filter_hot_pixels img thres k r c hk hr hc
  by_cases hcond : px img k r c - maxNeighbor (img.getD k []) r c > thres
  · rw [hpx, if_pos hcond]
    have hm : maxNeighbor (img.getD k []) r c < px img k r c := by linarith
    exact ⟨le_of_lt hm, fun _ => rfl, fun _ => hcond, fun _ => ne_of_lt hm⟩
  · rw [hpx, if_neg hcond]
    exact ⟨le_refl _, fun hcc => absurd hcc hcond,
      fun hne => (hne rfl).elim, fun hgt => (hcond hgt).elim⟩

/-- Witness for C8: a 1×2×2 image with a hot pixel. -/
theorem claim8_witness :
    (0 : ℚ) ≤ 1 ∧
    px (filter_hot_pixels [[[0, 0], [0, 10]]] 1) 0 1 1 ≤ px [[[0, 0], [0, 10]]] 0 1 1 :=
  ⟨by norm_num,
    (claim8_hot_pixels [[[0, 0], [0, 10]]] 1 (by norm_num) 0 1 1
      (by decide) (by decide) (by decide)).1⟩

/-! ### `_match_txt_file` (claim C4) -/

/-- C4 (amended): for an MCD file whose stem has no regex metacharacters,
`_match_txt_file` returns a txt file exactly when exactly one file of the
sequence matches — and then returns that file — where matching means: some
*prefix* of the file name is the stem, any characters, an underscore,
optional zeros, the acquisition id, one arbitrary character and `txt`
(`re.match` anchors only at the start of the name, and the dot of `".txt"`
is an unescaped wildcard). -/
theorem claim4_match_amended (mcd_file : String) (acq_id : Nat)
    (txt_files : List String) (t : String)
    (_hsafe : regexSafeStem (pathStem mcd_file) = true) :
    _match_txt_file mcd_file acq_id (fun p => p) txt_files = some t ↔
      txt_files.filter
        (fun f => matchesTxtName (pathStem mcd_file) acq_id (pathName f)) = [t] := by
  unfold _match_txt_file
  rcases hl : txt_files.filter
      (fun f => matchesTxtName (pathStem mcd_file) acq_id (pathName f)) with _ | ⟨a, _ | ⟨b, l⟩⟩
  · simp
  · simp
  · simp

/-- Witness for C4 at a uniquely matching concrete input. -/
theorem claim4_match_witness :
    _match_txt_file "run/A.mcd" 1 (fun p => p) ["run/A_01.txt"] = some "run/A_01.txt" :=
  (claim4_match_amended "run/A.mcd" 1 ["run/A_01.txt"] "run/A_01.txt" (by decide)).mpr
    (by decide)

/-- Counterexample for C4 as stated: the name `A_1ytxt` neither ends in
`".txt"` nor contains a literal dot, so under the claimed pattern no file
matches and `None` should be returned; the code still returns it, because
`re.match` only anchors at the start and the `.` of `".txt"` is a
wildcard. -/
theorem claim4_match_counterexample :
    _match_txt_file "A.mcd" 1 (fun p => p) ["A_1ytxt"] = some "A_1ytxt" ∧
    specTxtNameMatches (pathStem "A.mcd") 1 (pathName "A_1ytxt") = false := by
  constructor
  · decide
  · decide

/-! ### Lemmas about `_clean_panel` and the panel creators -/

theorem nameDedupe_map (l : List PRow) (f : PRow → β)
    (hf : ∀ (r : PRow) (nm : String), f { r with name := nm } = f r) :
    (nameDedupe l).map f = l.map f := by
  have hr : l.map f = l.enum.map (f ∘ Prod.snd) := by
    rw [← List.map_map, List.enum_map_snd]
  rw [hr]
  unfold nameDedupe
  rw [List.map_map]
  apply List.map_congr_left
  intro p _
  by_cases h : 1 < l.countP (fun x => x.name == p.2.name)
  · simp only [Function.comp_apply, if_pos h]
    exact hf _ _
  · simp only [Function.comp_apply, if_neg h]

theorem assignIlastik_map (f : PRow → β)
    (hf : ∀ (r : PRow) (n : Option Nat), f { r with ilastik := n } = f r) :
    ∀ (k : Nat) (l : List PRow), (assignIlastik k l).map f = l.map f := by
  intro k l
  induction l generalizing k with
  | nil => rfl
  | cons r rs ih =>
    by_cases h : r.keep = some true
    · simp only [assignIlastik, if_pos h, List.map_cons, hf, ih]
    · simp only [assignIlastik, if_neg h, List.map_cons, ih]

theorem renumberIlastik_map (f : PRow → β)
    (hf : ∀ (r : PRow) (n : Option Nat), f { r with ilastik := n } = f r) :
    ∀ (k : Nat) (l : List PRow), (renumberIlastik k l).map f = l.map f := by
  intro k l
  induction l generalizing k with
  | nil => rfl
  | cons r rs ih =>
    by_cases h : (r.ilastik.getD 0) ≠ 0
    · simp only [renumberIlastik, if_pos h, List.map_cons, hf, ih]
    · simp only [renumberIlastik, if_neg h, List.map_cons, hf, ih]

theorem cleanRows_map (p : Panel) (f : PRow → β)
    (hname : ∀ (r : PRow) (nm : String), f { r with name := nm } = f r)
    (hkeep : ∀ (r : PRow) (b : Option Bool), f { r with keep := b } = f r)
    (hil : ∀ (r : PRow) (n : Option Nat), f { r with ilastik := n } = f r) :
    (cleanRows p).map f =
      (List.insertionSort (fun a b => channelKeyD a ≤ channelKeyD b) p.rows).map f := by
  simp only [cleanRows]
  have hset : ∀ l : List PRow,
      (l.map (fun r => { r with keep := some true })).map f = l.map f := by
    intro l
    rw [List.map_map]
    exact List.map_congr_left (fun r _ => hkeep r _)
  by_cases hk : "keep" ∈ p.columns
  · rw [if_pos hk]
    by_cases hi : "ilastik" ∈ p.columns
    · rw [if_pos hi, nameDedupe_map _ _ hname]
    · rw [if_neg hi, assignIlastik_map _ hil 0 _, nameDedupe_map _ _ hname]
  · rw [if_neg hk]
    by_cases hi : "ilastik" ∈ p.columns
    · rw [if_pos hi, hset, nameDedupe_map _ _ hname]
    · rw [if_neg hi, assignIlastik_map _ hil 0 _, hset, nameDedupe_map _ _ hname]

theorem pairwise_channelKey_transfer {l₁ l₂ : List PRow}
    (hc : l₁.map (fun r => r.channel) = l₂.map (fun r => r.channel))
    (h : l₁.Pairwise (fun a b => channelKeyD a ≤ channelKeyD b)) :
    l₂.Pairwise (fun a b => channelKeyD a ≤ channelKeyD b) := by
  have key : ∀ l : List PRow, l.map channelKeyD =
      (l.map (fun r => r.channel)).map (fun s => (channelKey s).getD 0) := by
    intro l; rw [List.map_map]; rfl
  have h1 : List.Pairwise (fun a b : Nat => a ≤ b) (l₁.map channelKeyD) :=
    List.pairwise_map.mpr h
  rw [key, hc, ← key] at h1
  exact List.pairwise_map.mp h1

theorem cleanRows_channels (p : Panel) :
    (cleanRows p).map (fun r => r.channel) =
      (List.insertionSort (fun a b => channelKeyD a ≤ channelKeyD b) p.rows).map
        (fun r => r.channel) :=
  cleanRows_map p _ (fun _ _ => rfl) (fun _ _ => rfl) (fun _ _ => rfl)

theorem cleanRows_sorted (p : Panel) :
    (cleanRows p).Pairwise (fun a b => channelKeyD a ≤ channelKeyD b) := by
  haveI : IsTotal PRow (fun a b => channelKeyD a ≤ channelKeyD b) :=
    ⟨fun a b => Nat.le_total _ _⟩
  haveI : IsTrans PRow (fun a b => channelKeyD a ≤ channelKeyD b) :=
    ⟨fun _ _ _ hab hbc => Nat.le_trans hab hbc⟩
  have hs := List.sorted_insertionSort (fun a b : PRow => channelKeyD a ≤ channelKeyD b) p.rows
  exact pairwise_channelKey_transfer (cleanRows_channels p).symm hs

theorem keep_all_of_map_eq {l₁ l₂ : List PRow}
    (hm : l₂.map (fun r => r.keep) = l₁.map (fun r => r.keep))
    (h : ∀ r ∈ l₁, r.keep = some true) : ∀ r ∈ l₂, r.keep = some true := by
  intro r hr
  have hmem : r.keep ∈ l₂.map (fun r => r.keep) := List.mem_map_of_mem _ hr
  rw [hm] at hmem
  rcases List.mem_map.mp hmem with ⟨a, ha, hak⟩
  rw [← hak]
  exact h a ha

theorem cleanRows_keep_all (p : Panel) (hk : "keep" ∉ p.columns) :
    ∀ r ∈ cleanRows p, r.keep = some true := by
  have hmap : (cleanRows p).map (fun r => r.keep) =
      (nameDedupe (List.insertionSort (fun a b => channelKeyD a ≤ channelKeyD b)
        p.rows)).map (fun _ => some true) := by
    simp only [cleanRows, if_neg hk]
    by_cases hi : "ilastik" ∈ p.columns
    · rw [if_pos hi, List.map_map]; rfl
    · rw [if_neg hi, assignIlastik_map (fun r => r.keep) (fun _ _ => rfl) 0 _,
        List.map_map]
      rfl
  intro r hr
  have hmem : r.keep ∈ (cleanRows p).map (fun r => r.keep) := List.mem_map_of_mem _ hr
  rw [hmap] at hmem
  rcases List.mem_map.mp hmem with ⟨a, _, hak⟩
  exact hak.symm

theorem cleanRows_length (p : Panel) : (cleanRows p).length = p.rows.length := by
  have h1 := congrArg List.length (cleanRows_channels p)
  simp only [List.length_map] at h1
  rw [h1]
  exact (List.perm_insertionSort _ p.rows).length_eq

theorem cleanCols_take_five (p : Panel) :
    (cleanCols p).take 5 = ["channel", "name", "keep", "ilastik", "deepcell"] := rfl

theorem clean_panel_some (p q : Panel) (h : _clean_panel p = some q) :
    q.columns = cleanCols p ∧ q.rows = cleanRows p := by
  unfold _clean_panel at h
  split at h
  · injection h with h'; rw [← h']; exact ⟨rfl, rfl⟩
  · exact absurd h (by simp)

theorem create_mcd_some (files : List (List (List AcqChannels))) (q : Panel)
    (h : create_panel_from_mcd_files files = some q) :
    _clean_panel ⟨["channel", "name"], (dropDuplicates (mcdPanelPairs files)).map pairRow⟩
      = some q := by
  unfold create_panel_from_mcd_files at h
  split at h
  · exact absurd h (by simp)
  · exact h

theorem create_txt_some (files : List AcqChannels) (q : Panel)
    (h : create_panel_from_txt_files files = some q) :
    _clean_panel ⟨["channel", "name"], (dropDuplicates (txtPanelPairs files)).map pairRow⟩
      = some q := by
  unfold create_panel_from_txt_files at h
  split at h
  · exact absurd h (by simp)
  · exact h

theorem create_imc_some (inp : ImcPanelInput) (q : Panel)
    (h : create_panel_from_imc_panel inp = some q) :
    ∃ cleaned, _clean_panel ⟨imcCols inp, (imcKeys inp).map (imcMergedRow inp)⟩ = some cleaned ∧
      q = ⟨cleaned.columns, renumberIlastik 0 cleaned.rows⟩ := by
  unfold create_panel_from_imc_panel at h
  split at h
  · split at h
    · exact absurd h (by simp)
    · injection h with h'
      exact ⟨_, by assumption, h'.symm⟩
  · exact absurd h (by simp)

/-! ### Claim C6: shape of every created panel -/

/-- C6: every panel returned by the three creation functions starts with
the columns `channel`, `name`, `keep`, `ilastik`, `deepcell` in that
order; when the input carries no keep information the `keep` value is
`True` in every row; and the rows are sorted (ascending) by the numeric
value of the digits of the channel id. -/
theorem claim6_panel_shape :
    (∀ files q, create_panel_from_mcd_files files = some q →
      q.columns.take 5 = ["channel", "name", "keep", "ilastik", "deepcell"] ∧
      (∀ r ∈ q.rows, r.keep = some true) ∧
      q.rows.Pairwise (fun a b => channelKeyD a ≤ channelKeyD b)) ∧
    (∀ files q, create_panel_from_txt_files files = some q →
      q.columns.take 5 = ["channel", "name", "keep", "ilastik", "deepcell"] ∧
      (∀ r ∈ q.rows, r.keep = some true) ∧
      q.rows.Pairwise (fun a b => channelKeyD a ≤ channelKeyD b)) ∧
    (∀ inp q, create_panel_from_imc_panel inp = some q →
      q.columns.take 5 = ["channel", "name", "keep", "ilastik", "deepcell"] ∧
      (inp.hasKeep = false → "keep" ∉ inp.extraCols → ∀ r ∈ q.rows, r.keep = some true) ∧
      q.rows.Pairwise (fun a b => channelKeyD a ≤ channelKeyD b)) := by
  refine ⟨?_, ?_, ?_⟩
  · intro files q h
    obtain ⟨hc, hr⟩ := clean_panel_some _ _ (create_mcd_some files q h)
    refine ⟨by rw [hc]; exact cleanCols_take_five _, ?_, by rw [hr]; exact cleanRows_sorted _⟩
    rw [hr]
    apply cleanRows_keep_all
    show "keep" ∉ ["channel", "name"]
    decide
  · intro files q h
    obtain ⟨hc, hr⟩ := clean_panel_some _ _ (create_txt_some files q h)
    refine ⟨by rw [hc]; exact cleanCols_take_five _, ?_, by rw [hr]; exact cleanRows_sorted _⟩
    rw [hr]
    apply cleanRows_keep_all
    show "keep" ∉ ["channel", "name"]
    decide
  · intro inp q h
    obtain ⟨cleaned, hcl, hq⟩ := create_imc_some inp q h
    obtain ⟨hc, hr⟩ := clean_panel_some _ _ hcl
    subst hq
    refine ⟨by rw [hc]; exact cleanCols_take_five _, ?_, ?_⟩
    · intro hnk hne
      have hkmem : "keep" ∉ imcCols inp := by
        simp [imcCols, hnk, hne]
      have hall : ∀ r ∈ cleaned.rows, r.keep = some true := by
        rw [hr]; exact cleanRows_keep_all _ hkmem
      exact keep_all_of_map_eq
        (renumberIlastik_map (fun r => r.keep) (fun _ _ => rfl) 0 cleaned.rows) hall
    · exact pairwise_channelKey_transfer
        ((renumberIlastik_map (fun r => r.channel) (fun _ _ => rfl) 0 cleaned.rows).symm)
        (by rw [hr]; exact cleanRows_sorted _)

/-- Witness for C6 on concrete MCD, TXT and IMC-panel inputs. -/
theorem claim6_witness :
    (⟨["channel", "name", "keep", "ilastik", "deepcell"],
      [⟨"Ir191", "DNA1", some true, some 1, none, []⟩]⟩ : Panel).columns.take 5 =
        ["channel", "name", "keep", "ilastik", "deepcell"] ∧
    (⟨["channel", "name", "keep", "ilastik", "deepcell"],
      [⟨"Pt195", "CK5", some true, some 1, none, []⟩]⟩ : Panel).rows.Pairwise
        (fun a b => channelKeyD a ≤ channelKeyD b) ∧
    (∀ r ∈ (⟨["channel", "name", "keep", "ilastik", "deepcell"],
      [⟨"Ir191", "DNA", some true, some 1, none, []⟩]⟩ : Panel).rows, r.keep = some true) :=
  ⟨(claim6_panel_shape.1 [[[⟨["Ir191"], ["DNA1"]⟩]]]
      ⟨["channel", "name", "keep", "ilastik", "deepcell"],
        [⟨"Ir191", "DNA1", some true, some 1, none, []⟩]⟩ (by decide)).1,
    (claim6_panel_shape.2.1 [⟨["Pt195"], ["CK5"]⟩]
      ⟨["channel", "name", "keep", "ilastik", "deepcell"],
        [⟨"Pt195", "CK5", some true, some 1, none, []⟩]⟩ (by decide)).2.2,
    (claim6_panel_shape.2.2 ⟨false, false, [],
        [⟨some "Ir191", some "DNA", none, none, []⟩]⟩
      ⟨["channel", "name", "keep", "ilastik", "deepcell"],
        [⟨"Ir191", "DNA", some true, some 1, none, []⟩]⟩ (by decide)).2.1 rfl (by decide)⟩

/-! ### Claim C1: uniqueness of channel ids -/

/-- C1 (amended): `create_panel_from_imc_panel` returns pairwise distinct
channel values; `create_panel_from_mcd_files` and
`create_panel_from_txt_files` only deduplicate whole `(channel, name)`
rows — the deduplicated merged pair table is duplicate-free and the
returned panel has exactly those channels (one row per merged pair), but
the same channel can appear in several rows when it occurs with different
names. -/
theorem claim1_channels_amended :
    (∀ inp q, create_panel_from_imc_panel inp = some q →
      (q.rows.map (fun r => r.channel)).Nodup) ∧
    (∀ files : List (List (List AcqChannels)),
      (dropDuplicates (mcdPanelPairs files)).Nodup) ∧
    (∀ files q, create_panel_from_mcd_files files = some q →
      (q.rows.map (fun r => r.channel)).Perm
        ((dropDuplicates (mcdPanelPairs files)).map Prod.fst)) ∧
    (∀ files : List AcqChannels, (dropDuplicates (txtPanelPairs files)).Nodup) ∧
    (∀ files q, create_panel_from_txt_files files = some q →
      (q.rows.map (fun r => r.channel)).Perm
        ((dropDuplicates (txtPanelPairs files)).map Prod.fst)) := by
  have hclean : ∀ (p : Panel) (q : Panel), _clean_panel p = some q →
      (q.rows.map (fun r => r.channel)).Perm (p.rows.map (fun r => r.channel)) := by
    intro p q h
    obtain ⟨_, hr⟩ := clean_panel_some _ _ h
    rw [hr, cleanRows_channels]
    exact (List.perm_insertionSort _ p.rows).map _
  have hpair : ∀ l : List (String × String),
      ((l.map pairRow).map (fun r => r.channel)) = l.map Prod.fst := by
    intro l; rw [List.map_map]; rfl
  refine ⟨?_, fun files => nodup_dropDuplicates _, ?_, fun files => nodup_dropDuplicates _, ?_⟩
  · intro inp q h
    obtain ⟨cleaned, hcl, hq⟩ := create_imc_some inp q h
    subst hq
    have h1 : ((⟨cleaned.columns, renumberIlastik 0 cleaned.rows⟩ : Panel).rows.map
        (fun r => r.channel)) = cleaned.rows.map (fun r => r.channel) :=
      renumberIlastik_map (fun r => r.channel) (fun _ _ => rfl) 0 cleaned.rows
    rw [h1]
    have h2 := hclean _ _ hcl
    have h3 : ((imcKeys inp).map (imcMergedRow inp)).map (fun r => r.channel)
        = imcKeys inp := by
      rw [List.map_map]
      have hcomp : ((fun r : PRow => r.channel) ∘ imcMergedRow inp) = id :=
        funext (fun s => rfl)
      rw [hcomp, List.map_id]
    have h4 : (imcKeys inp).Nodup := by
      unfold imcKeys
      exact ((List.perm_insertionSort _ _).symm).nodup (nodup_dropDuplicates _)
    have h5 := h2.trans (by rw [h3] : (((imcKeys inp).map (imcMergedRow inp)).map
      (fun r => r.channel)).Perm (imcKeys inp))
    exact h5.symm.nodup h4
  · intro files q h
    have h1 := hclean _ _ (create_mcd_some files q h)
    rw [hpair] at h1
    exact h1
  · intro files q h
    have h1 := hclean _ _ (create_txt_some files q h)
    rw [hpair] at h1
    exact h1

/-- Witness for C1 (amended) on concrete inputs. -/
theorem claim1_channels_witness :
    ((⟨["channel", "name", "keep", "ilastik", "deepcell"],
      [⟨"Ir191", "DNA", some true, some 1, none, []⟩]⟩ : Panel).rows.map
        (fun r => r.channel)).Nodup ∧
    ((⟨["channel", "name", "keep", "ilastik", "deepcell"],
      [⟨"Ir191", "DNA1", some true, some 1, none, []⟩]⟩ : Panel).rows.map
        (fun r => r.channel)).Perm
      ((dropDuplicates (mcdPanelPairs [[[⟨["Ir191"], ["DNA1"]⟩]]])).map Prod.fst) :=
  ⟨claim1_channels_amended.1 ⟨false, false, [],
      [⟨some "Ir191", some "DNA", none, none, []⟩]⟩
      ⟨["channel", "name", "keep", "ilastik", "deepcell"],
        [⟨"Ir191", "DNA", some true, some 1, none, []⟩]⟩ (by decide),
    claim1_channels_amended.2.2.1 [[[⟨["Ir191"], ["DNA1"]⟩]]]
      ⟨["channel", "name", "keep", "ilastik", "deepcell"],
        [⟨"Ir191", "DNA1", some true, some 1, none, []⟩]⟩ (by decide)⟩

/-- Counterexample for C1 as stated: one MCD file whose two acquisitions
carry the same channel `Ir191` under two different names; both rows
survive `drop_duplicates`, so the returned panel repeats the channel. -/
theorem claim1_channels_counterexample :
    create_panel_from_mcd_files [[[⟨["Ir191"], ["A"]⟩, ⟨["Ir191"], ["B"]⟩]]] =
      some ⟨["channel", "name", "keep", "ilastik", "deepcell"],
        [⟨"Ir191", "A", some true, some 1, none, []⟩,
         ⟨"Ir191", "B", some true, some 2, none, []⟩]⟩ ∧
    ¬ ((⟨["channel", "name", "keep", "ilastik", "deepcell"],
        [⟨"Ir191", "A", some true, some 1, none, []⟩,
         ⟨"Ir191", "B", some true, some 2, none, []⟩]⟩ : Panel).rows.map
          (fun r => r.channel)).Nodup := by
  constructor
  · decide
  · decide

/-! ### Claim C5: merging and deduplication in `create_panel_from_mcd_files` -/

/-- C5 (amended): the merged, deduplicated channel table of
`create_panel_from_mcd_files` contains exactly one row for each distinct
`(channel, name)` pair occurring in any acquisition of any slide of any
file and no other row; the returned panel is that table after cleaning,
which keeps one row per merged pair (same count, same channels, in sorted
order) but may rename duplicated display names by appending a numeric
suffix. -/
theorem claim5_merge_amended :
    (∀ (files : List (List (List AcqChannels))) pr,
      pr ∈ dropDuplicates (mcdPanelPairs files) ↔ pr ∈ mcdPanelPairs files) ∧
    (∀ files : List (List (List AcqChannels)),
      (dropDuplicates (mcdPanelPairs files)).Nodup) ∧
    (∀ files q, create_panel_from_mcd_files files = some q →
      q.rows.length = (dropDuplicates (mcdPanelPairs files)).length ∧
      (q.rows.map (fun r => r.channel)).Perm
        ((dropDuplicates (mcdPanelPairs files)).map Prod.fst)) := by
  refine ⟨fun files pr => mem_dropDuplicates _ _, fun files => nodup_dropDuplicates _, ?_⟩
  intro files q h
  obtain ⟨_, hr⟩ := clean_panel_some _ _ (create_mcd_some files q h)
  constructor
  · rw [hr, cleanRows_length]
    exact List.length_map _ _
  · rw [hr, cleanRows_channels]
    have hperm := (List.perm_insertionSort (fun a b => channelKeyD a ≤ channelKeyD b)
      ((dropDuplicates (mcdPanelPairs files)).map pairRow)).map (fun r : PRow => r.channel)
    have hpair : (((dropDuplicates (mcdPanelPairs files)).map pairRow).map
        (fun r : PRow => r.channel)) = (dropDuplicates (mcdPanelPairs files)).map Prod.fst := by
      rw [List.map_map]; rfl
    rw [hpair] at hperm
    exact hperm

/-- Witness for C5 on a concrete MCD input. -/
theorem claim5_merge_witness :
    (("Ir191", "DNA1") ∈ dropDuplicates (mcdPanelPairs [[[⟨["Ir191"], ["DNA1"]⟩]]]) ↔
      ("Ir191", "DNA1") ∈ mcdPanelPairs [[[⟨["Ir191"], ["DNA1"]⟩]]]) ∧
    (⟨["channel", "name", "keep", "ilastik", "deepcell"],
      [⟨"Ir191", "DNA1", some true, some 1, none, []⟩]⟩ : Panel).rows.length =
      (dropDuplicates (mcdPanelPairs [[[⟨["Ir191"], ["DNA1"]⟩]]])).length :=
  ⟨claim5_merge_amended.1 [[[⟨["Ir191"], ["DNA1"]⟩]]] ("Ir191", "DNA1"),
    (claim5_merge_amended.2.2 [[[⟨["Ir191"], ["DNA1"]⟩]]]
      ⟨["channel", "name", "keep", "ilastik", "deepcell"],
        [⟨"Ir191", "DNA1", some true, some 1, none, []⟩]⟩ (by decide)).1⟩

/-- Counterexample for C5 as stated: one acquisition with channels
`Ir191`, `Ir193` both named `DNA`.  The returned panel renames the rows to
`DNA 1` / `DNA 2`, so it contains the row `("Ir193", "DNA 2")`, which
occurs in no acquisition, and lacks the occurring pair `("Ir193", "DNA")`. -/
theorem claim5_merge_counterexample :
    create_panel_from_mcd_files [[[⟨["Ir191", "Ir193"], ["DNA", "DNA"]⟩]]] =
      some ⟨["channel", "name", "keep", "ilastik", "deepcell"],
        [⟨"Ir191", "DNA 1", some true, some 1, none, []⟩,
         ⟨"Ir193", "DNA 2", some true, some 2, none, []⟩]⟩ ∧
    ("Ir193", "DNA 2") ∈ (⟨["channel", "name", "keep", "ilastik", "deepcell"],
        [⟨"Ir191", "DNA 1", some true, some 1, none, []⟩,
         ⟨"Ir193", "DNA 2", some true, some 2, none, []⟩]⟩ : Panel).rows.map
      (fun r => (r.channel, r.name)) ∧
    ("Ir193", "DNA 2") ∉ mcdPanelPairs [[[⟨["Ir191", "Ir193"], ["DNA", "DNA"]⟩]]] ∧
    ("Ir193", "DNA") ∉ (⟨["channel", "name", "keep", "ilastik", "deepcell"],
        [⟨"Ir191", "DNA 1", some true, some 1, none, []⟩,
         ⟨"Ir193", "DNA 2", some true, some 2, none, []⟩]⟩ : Panel).rows.map
      (fun r => (r.channel, r.name)) := by
  refine ⟨by decide, by decide, by decide, by decide⟩

/-! ### Lemmas about the preprocessing generator -/

theorem foldl_preserve {σ α : Type _} (P : σ → Prop) (f : σ → α → σ)
    (hf : ∀ s a, P s → P (f s a)) : ∀ (l : List α) (s : σ), P s → P (l.foldl f s) := by
  intro l
  induction l with
  | nil => intro s h; exact h
  | cons a l ih => intro s h; exact ih (f s a) (hf s a h)

theorem get_channel_indices_error (chs : List String) :
    ∀ (ns : List String) (n : String), n ∈ ns → n ∉ chs →
      ∃ m, _get_channel_indices chs ns = .error m := by
  intro ns
  induction ns with
  | nil => intro n hn _; simp at hn
  | cons n' rest ih =>
    intro n hn hnot
    rcases List.mem_cons.mp hn with rfl | hmem
    · have hidx : chs.findIdx? (fun c => c == n) = none := by
        rw [List.findIdx?_eq_none_iff]
        intro x hx
        by_cases hxn : x = n
        · exact absurd (hxn ▸ hx) hnot
        · simp [hxn]
      exact ⟨n, by simp [_get_channel_indices, hidx]⟩
    · cases hidx : chs.findIdx? (fun c => c == n') with
      | none => exact ⟨n', by simp [_get_channel_indices, hidx]⟩
      | some i =>
        obtain ⟨m, hm⟩ := ih n hmem hnot
        exact ⟨m, by simp [_get_channel_indices, hidx, hm]⟩

theorem match_txt_file_mem {pathOf : α → String} {mcd : String} {aid : Nat}
    {l : List α} {t : α} (h : _match_txt_file mcd aid pathOf l = some t) : t ∈ l := by
  unfold _match_txt_file at h
  rcases hf : l.filter (fun u => matchesTxtName (pathStem mcd) aid (pathName (pathOf u)))
    with _ | ⟨a, _ | ⟨b, l''⟩⟩ <;> rw [hf] at h
  · simp at h
  · simp at h
    have ha : a ∈ l.filter
        (fun u => matchesTxtName (pathStem mcd) aid (pathName (pathOf u))) := by
      rw [hf]; exact List.mem_cons_self a []
    rw [← h]
    exact (List.mem_filter.mp ha).1
  · simp at h

theorem acqYield_txtPath (cn : Option (List String)) (hpf : Option ℚ) (mp : String)
    (acq : AcqData) (matched : Option TxtData) (chInd : Option (List Nat)) (y : Yielded)
    (h : acqYield cn hpf mp acq matched chInd = some y) :
    y.acq = some acq ∧ y.txtPath = matched.map (fun t => t.path) := by
  cases hread : acq.readResult with
  | some img =>
    simp only [acqYield, hread] at h
    injection h with h'
    rw [← h']
    exact ⟨rfl, rfl⟩
  | none =>
    cases matched with
    | none => simp [acqYield, hread] at h
    | some t =>
      cases htr : t.readResult with
      | none => simp [acqYield, recoveryYield, hread, htr] at h
      | some timg =>
        cases cn with
        | none =>
          simp only [acqYield, recoveryYield, hread, htr] at h
          injection h with h'
          rw [← h']
          exact ⟨rfl, rfl⟩
        | some ns =>
          cases hgi : _get_channel_indices t.channel_names ns with
          | error m => simp [acqYield, recoveryYield, hread, htr, hgi] at h
          | ok tinds =>
            simp only [acqYield, recoveryYield, hread, htr, hgi] at h
            injection h with h'
            rw [← h']
            exact ⟨rfl, rfl⟩

theorem processAcq_parts (cn : Option (List String)) (hpf : Option ℚ) (mp : String)
    (acq : AcqData) (um : List TxtData) :
    (processAcq cn hpf mp acq um).2 =
      consumeMatched um (_match_txt_file mp acq.id (fun t => t.path) um) ∧
    (∀ y, (processAcq cn hpf mp acq um).1 = some y →
      txtMentions y = ((_match_txt_file mp acq.id (fun t => t.path) um).map
        (fun t => t.path)).toList) := by
  cases cn with
  | none =>
    refine ⟨rfl, ?_⟩
    intro y hy
    obtain ⟨hacq, hpath⟩ := acqYield_txtPath none hpf mp acq _ none y hy
    rw [txtMentions, hacq, hpath]
  | some ns =>
    cases hgi : _get_channel_indices acq.channel_names ns with
    | error m =>
      refine ⟨by simp [processAcq, hgi], ?_⟩
      intro y hy
      simp [processAcq, hgi] at hy
    | ok inds =>
      refine ⟨by simp [processAcq, hgi], ?_⟩
      intro y hy
      simp only [processAcq, hgi] at hy
      obtain ⟨hacq, hpath⟩ := acqYield_txtPath (some ns) hpf mp acq _ (some inds) y hy
      rw [txtMentions, hacq, hpath]

theorem eraseP_eq_erase (l : List String) (p : String) :
    l.eraseP (fun s => s == p) = l.erase p := by
  induction l with
  | nil => rfl
  | cons a l ih =>
    by_cases h : a == p
    · simp [List.eraseP_cons, List.erase_cons, h]
    · simp [List.eraseP_cons, List.erase_cons, h, ih]

theorem map_path_eraseP (um : List TxtData) (p : String) :
    (um.eraseP (fun u => u.path == p)).map (fun u => u.path) =
      (um.map (fun u => u.path)).erase p := by
  rw [← eraseP_eq_erase]
  induction um with
  | nil => rfl
  | cons u um ih =>
    by_cases h : u.path == p
    · simp [List.eraseP_cons, h]
    · simp [List.eraseP_cons, h, ih]

theorem consumeMatched_sublist (um : List TxtData) (m : Option TxtData) :
    (consumeMatched um m).Sublist um := by
  cases m with
  | none => exact List.Sublist.refl um
  | some t => exact List.eraseP_sublist um

theorem stepAcq_nodup (cn : Option (List String)) (hpf : Option ℚ) (mp : String)
    (st : List Yielded × List TxtData) (acq : AcqData)
    (h : ((st.1.flatMap txtMentions) ++ st.2.map (fun t => t.path)).Nodup) :
    (((stepAcq cn hpf mp st acq).1.flatMap txtMentions) ++
      (stepAcq cn hpf mp st acq).2.map (fun t => t.path)).Nodup := by
  obtain ⟨h2, hmen⟩ := processAcq_parts cn hpf mp acq st.2
  have hstep : stepAcq cn hpf mp st acq =
      (st.1 ++ ((processAcq cn hpf mp acq st.2).1).toList,
        (processAcq cn hpf mp acq st.2).2) := rfl
  rw [hstep, h2]
  rw [List.flatMap_append]
  cases hmatch : _match_txt_file mp acq.id (fun t => t.path) st.2 with
  | none =>
    simp only [consumeMatched]
    cases hy : (processAcq cn hpf mp acq st.2).1 with
    | none => simpa using h
    | some y =>
      have hmy := hmen y hy
      rw [hmatch] at hmy
      simp only [Option.map_none', Option.toList_none] at hmy
      simpa [hmy] using h
  | some t =>
    have hmem : t ∈ st.2 := match_txt_file_mem hmatch
    have hmemp : t.path ∈ st.2.map (fun u => u.path) := List.mem_map_of_mem _ hmem
    simp only [consumeMatched]
    rw [map_path_eraseP]
    cases hy : (processAcq cn hpf mp acq st.2).1 with
    | none =>
      have hsub : ((st.2.map (fun u => u.path)).erase t.path).Sublist
          (st.2.map (fun u => u.path)) := List.erase_sublist _ _
      simp only [Option.toList_none, List.flatMap_nil, List.append_nil]
      exact (hsub.append_left _).nodup h
    | some y =>
      have hmy := hmen y hy
      rw [hmatch] at hmy
      simp only [Option.map_some', Option.toList_some] at hmy
      have hperm : (st.2.map (fun u => u.path)).Perm
          (t.path :: (st.2.map (fun u => u.path)).erase t.path) :=
        List.perm_cons_erase hmemp
      have h3 : ((st.1.flatMap txtMentions) ++
          (t.path :: (st.2.map (fun u => u.path)).erase t.path)).Nodup :=
        (hperm.append_left _).nodup h
      simp only [Option.toList_some, List.flatMap_cons, List.flatMap_nil,
        List.append_nil, hmy]
      simpa [List.append_assoc] using h3

theorem stepAcq_sublist (cn : Option (List String)) (hpf : Option ℚ) (mp : String)
    (st : List Yielded × List TxtData) (acq : AcqData) {txts : List TxtData}
    (h : st.2.Sublist txts) : (stepAcq cn hpf mp st acq).2.Sublist txts := by
  have h2 := (processAcq_parts cn hpf mp acq st.2).1
  have hs : (stepAcq cn hpf mp st acq).2 = (processAcq cn hpf mp acq st.2).2 := rfl
  rw [hs, h2]
  exact (consumeMatched_sublist _ _).trans h

theorem processMcdPhase_nodup (cn : Option (List String)) (hpf : Option ℚ)
    (mcds : List McdData) (txts : List TxtData)
    (h : (txts.map (fun t => t.path)).Nodup) :
    (((processMcdPhase cn hpf mcds txts).1.flatMap txtMentions) ++
      (processMcdPhase cn hpf mcds txts).2.map (fun t => t.path)).Nodup := by
  unfold processMcdPhase
  refine foldl_preserve (fun st : List Yielded × List TxtData =>
    ((st.1.flatMap txtMentions) ++ st.2.map (fun t => t.path)).Nodup)
    (processMcdFile cn hpf) ?_ mcds ([], txts) (by simpa using h)
  intro st mcd hst
  unfold processMcdFile
  refine foldl_preserve (fun st : List Yielded × List TxtData =>
    ((st.1.flatMap txtMentions) ++ st.2.map (fun t => t.path)).Nodup)
    (processSlide cn hpf mcd.path) ?_ mcd.slides st hst
  intro st' acqs hst'
  unfold processSlide
  exact foldl_preserve (fun st : List Yielded × List TxtData =>
    ((st.1.flatMap txtMentions) ++ st.2.map (fun t => t.path)).Nodup)
    (stepAcq cn hpf mcd.path)
    (fun s a hs => stepAcq_nodup cn hpf mcd.path s a hs) acqs st' hst'

theorem processMcdPhase_sublist (cn : Option (List String)) (hpf : Option ℚ)
    (mcds : List McdData) (txts : List TxtData) :
    (processMcdPhase cn hpf mcds txts).2.Sublist txts := by
  unfold processMcdPhase
  refine foldl_preserve (fun st : List Yielded × List TxtData => st.2.Sublist txts)
    (processMcdFile cn hpf) ?_ mcds ([], txts) (List.Sublist.refl txts)
  intro st mcd hst
  unfold processMcdFile
  refine foldl_preserve (fun st : List Yielded × List TxtData => st.2.Sublist txts)
    (processSlide cn hpf mcd.path) ?_ mcd.slides st hst
  intro st' acqs hst'
  unfold processSlide
  exact foldl_preserve (fun st : List Yielded × List TxtData => st.2.Sublist txts)
    (stepAcq cn hpf mcd.path)
    (fun s a hs => stepAcq_sublist cn hpf mcd.path s a hs) acqs st' hst'

theorem processTxtFile_spec (cn : Option (List String)) (hpf : Option ℚ) (t : TxtData)
    (y : Yielded) (h : processTxtFile cn hpf t = some y) :
    txtMentions y = [t.path] ∧ y.recovered = false := by
  cases cn with
  | none =>
    cases htr : t.readResult with
    | none => simp [processTxtFile, htr] at h
    | some img =>
      simp only [processTxtFile, htr] at h
      injection h with h'
      rw [← h']
      exact ⟨rfl, rfl⟩
  | some ns =>
    cases hgi : _get_channel_indices t.channel_names ns with
    | error m => simp [processTxtFile, hgi] at h
    | ok inds =>
      cases htr : t.readResult with
      | none => simp [processTxtFile, hgi, htr] at h
      | some img =>
        simp only [processTxtFile, hgi, htr] at h
        injection h with h'
        rw [← h']
        exact ⟨rfl, rfl⟩

theorem txtPhase_mentions_sublist (cn : Option (List String)) (hpf : Option ℚ) :
    ∀ ts : List TxtData,
      ((processTxtPhase cn hpf ts).flatMap txtMentions).Sublist
        (ts.map (fun t => t.path)) := by
  intro ts
  induction ts with
  | nil => simp [processTxtPhase]
  | cons t ts ih =>
    simp only [processTxtPhase, List.flatMap_cons, List.flatMap_append] at ih ⊢
    cases hy : processTxtFile cn hpf t with
    | none =>
      simp only [Option.toList_none, List.flatMap_nil, List.nil_append, List.map_cons]
      exact ih.cons _
    | some y =>
      obtain ⟨hm, _⟩ := processTxtFile_spec cn hpf t y hy
      simp only [Option.toList_some, List.flatMap_cons, List.flatMap_nil,
        List.append_nil, List.map_cons, hm]
      exact ih.cons₂ _

theorem txtPhase_recovered (cn : Option (List String)) (hpf : Option ℚ)
    (ts : List TxtData) (y : Yielded) (hy : y ∈ processTxtPhase cn hpf ts) :
    y.recovered = false := by
  rcases List.mem_flatMap.mp hy with ⟨t, _, hyt⟩
  have : processTxtFile cn hpf t = some y := by
    cases h : processTxtFile cn hpf t with
    | none => rw [h] at hyt; simp at hyt
    | some y' => rw [h] at hyt; simp at hyt; rw [hyt]
  exact (processTxtFile_spec cn hpf t y this).2

theorem lexLe_total : ∀ as bs : List Char, lexLe as bs = true ∨ lexLe bs as = true := by
  intro as
  induction as with
  | nil => intro bs; left; rfl
  | cons a as ih =>
    intro bs
    cases bs with
    | nil => right; rfl
    | cons b bs =>
      by_cases h1 : a.toNat < b.toNat
      · left; simp [lexLe, h1]
      · by_cases h2 : b.toNat < a.toNat
        · right; simp [lexLe, h2]
        · rcases ih bs with h | h
          · left; simp [lexLe, h1, h2, h]
          · right; simp [lexLe, h1, h2, h]

theorem lexLe_trans : ∀ as bs cs : List Char,
    lexLe as bs = true → lexLe bs cs = true → lexLe as cs = true := by
  intro as
  induction as with
  | nil => intro bs cs _ _; rfl
  | cons a as ih =>
    intro bs cs h1 h2
    cases bs with
    | nil => simp [lexLe] at h1
    | cons b bs =>
      cases cs with
      | nil => simp [lexLe] at h2
      | cons c cs =>
        simp only [lexLe] at h1 h2 ⊢
        by_cases hab : a.toNat < b.toNat
        · by_cases hbc : b.toNat < c.toNat
          · have hac : a.toNat < c.toNat := by omega
            simp [hac]
          · by_cases hcb : c.toNat < b.toNat
            · rw [if_neg hbc, if_pos hcb] at h2; exact absurd h2 (by simp)
            · have hac : a.toNat < c.toNat := by omega
              simp [hac]
        · by_cases hba : b.toNat < a.toNat
          · rw [if_neg hab, if_pos hba] at h1; exact absurd h1 (by simp)
          · rw [if_neg hab, if_neg hba] at h1
            by_cases hbc : b.toNat < c.toNat
            · have hac : a.toNat < c.toNat := by omega
              simp [hac]
            · by_cases hcb : c.toNat < b.toNat
              · rw [if_neg hbc, if_pos hcb] at h2; exact absurd h2 (by simp)
              · rw [if_neg hbc, if_neg hcb] at h2
                have hac : ¬a.toNat < c.toNat := by omega
                have hca : ¬c.toNat < a.toNat := by omega
                rw [if_neg hac, if_neg hca]
                exact ih bs cs h1 h2

/-! ### Claim C9: every txt file is consumed at most once -/

/-- C9: when the input txt paths are distinct, no txt file path is
mentioned by more than one yielded tuple over a complete run (a matched
txt file is erased from the unmatched list, so it appears in at most one
acquisition tuple and is never yielded again as a standalone source; the
standalone phase only consumes the still-unmatched files, each once). -/
theorem claim9_txt_once (mcds : List McdData) (txts : List TxtData)
    (cn : Option (List String)) (hpf : Option ℚ)
    (h : (txts.map (fun t => t.path)).Nodup) :
    ((try_preprocess_images_from_disk mcds txts cn hpf).flatMap txtMentions).Nodup := by
  have hphase := processMcdPhase_nodup cn hpf (sortedMcdFiles mcds) txts h
  have hsub := txtPhase_mentions_sublist cn hpf
    (processMcdPhase cn hpf (sortedMcdFiles mcds) txts).2
  have heq : try_preprocess_images_from_disk mcds txts cn hpf =
      (processMcdPhase cn hpf (sortedMcdFiles mcds) txts).1 ++
        processTxtPhase cn hpf (processMcdPhase cn hpf (sortedMcdFiles mcds) txts).2 := by
    unfold try_preprocess_images_from_disk
    rcases processMcdPhase cn hpf (sortedMcdFiles mcds) txts with ⟨ys, rem⟩
    rfl
  rw [heq, List.flatMap_append]
  exact (hsub.append_left _).nodup hphase

/-- Witness for C9 at a concrete input (one MCD acquisition that matches
and recovers from the single txt file). -/
theorem claim9_txt_once_witness :
    (([⟨"A_1.txt", ["Y"], some [[[5]]]⟩] : List TxtData).map (fun t => t.path)).Nodup ∧
    ((try_preprocess_images_from_disk
        [⟨"A.mcd", [[⟨1, ["Y"], none⟩]]⟩] [⟨"A_1.txt", ["Y"], some [[[5]]]⟩]
        none none).flatMap txtMentions).Nodup :=
  ⟨by decide,
    claim9_txt_once [⟨"A.mcd", [[⟨1, ["Y"], none⟩]]⟩] [⟨"A_1.txt", ["Y"], some [[[5]]]⟩]
      none none (by decide)⟩

/-! ### Claim C10: processing order -/

/-- C10: the generator behaves as if the MCD files were first rearranged
into a permutation whose stems are descending in the code-point
lexicographic order (Python `sorted(..., key=stem, reverse=True)`),
processed in that order, and the txt files still unmatched afterwards — a
sublist of the input, hence in input order — are processed last; the
yields are exactly the MCD-phase yields followed by the txt-phase yields. -/
theorem claim10_order (mcds : List McdData) (txts : List TxtData)
    (cn : Option (List String)) (hpf : Option ℚ) :
    ∃ ms : List McdData,
      ms.Perm mcds ∧
      ms.Pairwise (fun a b => strLe (pathStem b.path) (pathStem a.path) = true) ∧
      try_preprocess_images_from_disk mcds txts cn hpf =
        (processMcdPhase cn hpf ms txts).1 ++
          processTxtPhase cn hpf (processMcdPhase cn hpf ms txts).2 ∧
      (processMcdPhase cn hpf ms txts).2.Sublist txts := by
  refine ⟨sortedMcdFiles mcds, List.perm_insertionSort _ _, ?_, ?_,
    processMcdPhase_sublist cn hpf (sortedMcdFiles mcds) txts⟩
  · haveI : IsTotal McdData
        (fun a b => strLe (pathStem b.path) (pathStem a.path) = true) :=
      ⟨fun a b => lexLe_total (pathStem b.path).toList (pathStem a.path).toList⟩
    haveI : IsTrans McdData
        (fun a b => strLe (pathStem b.path) (pathStem a.path) = true) :=
      ⟨fun a b c h1 h2 => lexLe_trans (pathStem c.path).toList (pathStem b.path).toList
        (pathStem a.path).toList h2 h1⟩
    exact List.sorted_insertionSort
      (fun a b : McdData => strLe (pathStem b.path) (pathStem a.path) = true) mcds
  · unfold try_preprocess_images_from_disk
    rcases processMcdPhase cn hpf (sortedMcdFiles mcds) txts with ⟨ys, rem⟩
    rfl

/-! ### Claim C3: missing requested channels skip the acquisition -/

/-- C3: when channel names are requested and one of them is absent from the
channel names in play — the MCD acquisition's, the recovery txt file's
(after a failed binary read with a successful txt read), or a standalone
txt file's — no tuple is produced for that acquisition; the total functions
model that no exception escapes, only the yield is suppressed. -/
theorem claim3_missing_channel (ns : List String) (hpf : Option ℚ) (mp : String) :
    (∀ (acq : AcqData) (um : List TxtData) (n : String), n ∈ ns →
      n ∉ acq.channel_names →
      (processAcq (some ns) hpf mp acq um).1 = none) ∧
    (∀ (acq : AcqData) (um : List TxtData) (t : TxtData) (timg : I3) (n : String),
      acq.readResult = none →
      _match_txt_file mp acq.id (fun u => u.path) um = some t →
      t.readResult = some timg →
      n ∈ ns → n ∉ t.channel_names →
      (processAcq (some ns) hpf mp acq um).1 = none) ∧
    (∀ (t : TxtData) (n : String), n ∈ ns → n ∉ t.channel_names →
      processTxtFile (some ns) hpf t = none) := by
  refine ⟨?_, ?_, ?_⟩
  · intro acq um n hn hnot
    obtain ⟨m, hm⟩ := get_channel_indices_error acq.channel_names ns n hn hnot
    simp [processAcq, hm]
  · intro acq um t timg n hread hmatch htread hn hnot
    obtain ⟨m, hm⟩ := get_channel_indices_error t.channel_names ns n hn hnot
    cases hgi : _get_channel_indices acq.channel_names ns with
    | error m' => simp [processAcq, hgi]
    | ok inds =>
      simp [processAcq, hgi, acqYield, hread, hmatch, recoveryYield, htread, hm]
  · intro t n hn hnot
    obtain ⟨m, hm⟩ := get_channel_indices_error t.channel_names ns n hn hnot
    simp [processTxtFile, hm]

/-- Witness for C3 at concrete inputs (requested channel `X`, available
channel `Y`). -/
theorem claim3_missing_channel_witness :
    (processAcq (some ["X"]) none "A.mcd" ⟨1, ["Y"], some [[[1]]]⟩ []).1 = none ∧
    processTxtFile (some ["X"]) none ⟨"b.txt", ["Y"], some [[[1]]]⟩ = none :=
  ⟨(claim3_missing_channel ["X"] none "A.mcd").1 ⟨1, ["Y"], some [[[1]]]⟩ [] "X"
      (by decide) (by decide),
    (claim3_missing_channel ["X"] none "A.mcd").2.2 ⟨"b.txt", ["Y"], some [[[1]]]⟩ "X"
      (by decide) (by decide)⟩

/-! ### Claim C2: recovery from a failed binary read -/

/-- C2 (amended): for an acquisition that is not skipped by the channel
check and whose binary read raises `IOError`: if a txt file was uniquely
matched, its read succeeds and (when channel names are requested) every
requested channel exists in the txt file, the generator yields the
(channel-selected, preprocessed) txt image with the matched path and
`recovered = True`; with no matched txt file, a failing txt read, or a
requested channel missing from the txt file, nothing is yielded for the
acquisition; every tuple yielded for an acquisition whose binary read
succeeded, and every standalone txt tuple, has `recovered = False`. -/
theorem claim2_recovery_amended (hpf : Option ℚ) (mp : String) :
    (∀ (acq : AcqData) (um : List TxtData) (t : TxtData) (timg : I3),
      acq.readResult = none →
      _match_txt_file mp acq.id (fun u => u.path) um = some t →
      t.readResult = some timg →
      (processAcq none hpf mp acq um).1 =
        some ⟨mp, some acq, preprocess_image timg hpf, some t.path, true⟩) ∧
    (∀ (ns : List String) (acq : AcqData) (um : List TxtData) (t : TxtData)
        (timg : I3) (ainds tinds : List Nat),
      acq.readResult = none →
      _get_channel_indices acq.channel_names ns = .ok ainds →
      _match_txt_file mp acq.id (fun u => u.path) um = some t →
      t.readResult = some timg →
      _get_channel_indices t.channel_names ns = .ok tinds →
      (processAcq (some ns) hpf mp acq um).1 =
        some ⟨mp, some acq, preprocess_image (selectChannels tinds timg) hpf,
          some t.path, true⟩) ∧
    (∀ (cn : Option (List String)) (acq : AcqData) (um : List TxtData),
      acq.readResult = none →
      _match_txt_file mp acq.id (fun u => u.path) um = none →
      (processAcq cn hpf mp acq um).1 = none) ∧
    (∀ (cn : Option (List String)) (acq : AcqData) (um : List TxtData) (t : TxtData),
      acq.readResult = none →
      _match_txt_file mp acq.id (fun u => u.path) um = some t →
      t.readResult = none →
      (processAcq cn hpf mp acq um).1 = none) ∧
    (∀ (cn : Option (List String)) (acq : AcqData) (um : List TxtData)
        (img : I3) (y : Yielded),
      acq.readResult = some img →
      (processAcq cn hpf mp acq um).1 = some y → y.recovered = false) ∧
    (∀ (cn : Option (List String)) (ts : List TxtData) (y : Yielded),
      y ∈ processTxtPhase cn hpf ts → y.recovered = false) := by
  refine ⟨?_, ?_, ?_, ?_, ?_, ?_⟩
  · intro acq um t timg hread hmatch htread
    simp [processAcq, acqYield, hread, hmatch, recoveryYield, htread]
  · intro ns acq um t timg ainds tinds hread hga hmatch htread hgt
    simp [processAcq, hga, acqYield, hread, hmatch, recoveryYield, htread, hgt]
  · intro cn acq um hread hmatch
    cases cn with
    | none => simp [processAcq, acqYield, hread, hmatch]
    | some ns =>
      cases hgi : _get_channel_indices acq.channel_names ns with
      | error m => simp [processAcq, hgi]
      | ok inds => simp [processAcq, hgi, acqYield, hread, hmatch]
  · intro cn acq um t hread hmatch htread
    cases cn with
    | none => simp [processAcq, acqYield, hread, hmatch, recoveryYield, htread]
    | some ns =>
      cases hgi : _get_channel_indices acq.channel_names ns with
      | error m => simp [processAcq, hgi]
      | ok inds =>
        simp [processAcq, hgi, acqYield, hread, hmatch, recoveryYield, htread]
  · intro cn acq um img y hread hy
    cases cn with
    | none =>
      simp only [processAcq, acqYield, hread] at hy
      injection hy with h'
      rw [← h']
    | some ns =>
      cases hgi : _get_channel_indices acq.channel_names ns with
      | error m => simp [processAcq, hgi] at hy
      | ok inds =>
        simp only [processAcq, hgi, acqYield, hread] at hy
        injection hy with h'
        rw [← h']
  · intro cn ts y hy
    exact txtPhase_recovered cn hpf ts y hy

/-- Witness for C2 (amended): a failed binary read recovered from the
matched txt file, with a channel filter satisfied by the txt file. -/
theorem claim2_recovery_witness :
    (processAcq (some ["Y"]) none "A.mcd" ⟨1, ["Y"], none⟩
        [⟨"A_1.txt", ["Y"], some [[[5]]]⟩]).1 =
      some ⟨"A.mcd", some ⟨1, ["Y"], none⟩,
        preprocess_image (selectChannels [0] [[[5]]]) none, some "A_1.txt", true⟩ :=
  (claim2_recovery_amended none "A.mcd").2.1 ["Y"] ⟨1, ["Y"], none⟩
    [⟨"A_1.txt", ["Y"], some [[[5]]]⟩] ⟨"A_1.txt", ["Y"], some [[[5]]]⟩ [[[5]]]
    [0] [0] rfl rfl (by decide) rfl rfl

/-- Counterexample for C2 as stated: the binary read fails, a txt file is
uniquely matched and its read succeeds, yet nothing is yielded, because
the requested channel `X` is absent from the txt file's channels (the
recovery-side channel check the claim omits). -/
theorem claim2_recovery_counterexample :
    (⟨"A_1.txt", ["Y"], some [[[5]]]⟩ : TxtData).readResult = some [[[5]]] ∧
    _match_txt_file "A.mcd" 1 (fun u : TxtData => u.path)
      [⟨"A_1.txt", ["Y"], some [[[5]]]⟩] = some ⟨"A_1.txt", ["Y"], some [[[5]]]⟩ ∧
    processAcq (some ["X"]) none "A.mcd" ⟨1, ["X"], none⟩
      [⟨"A_1.txt", ["Y"], some [[[5]]]⟩] = (none, []) := by
  refine ⟨rfl, by decide, by decide⟩
